import Mathlib

/-!
Shallow embedding of the block-processing core of the Gamified Voice
Application (`src/src/Monitor.py`): the per-block state dictionary
(`trackers`), the speech-block handler `parse_sample`, the silent-block
handler `silence`, and the final report printed when the monitor loop
stops.  Times and pitch values are modelled as exact rationals; the
pitch-estimation, formant and playback collaborators are external, so a
speech block is modelled by the pitch estimate and wall-clock time it
delivers, and sound/file side effects are modelled as an explicit effect
list.
-/

namespace GVA

/-- Observable side effects of one block: the `play_sound_threaded` calls,
the printed in-range percentage, the `score.txt` write, and the final
score printed on stop. -/
inductive Effect where
  | playError : Effect
  | playPinpon : Effect
  | reportPercent (percent : ℚ) : Effect
  | writeScore (percent : ℚ) : Effect
  | reportFinal (percent : ℚ) : Effect
  deriving DecidableEq, Repr

/-- Command-line arguments consumed by the monitor (`main` in
`src/src/Monitor.py`): the pitch band bounds and the five feature
toggles. -/
structure Args where
  min : ℤ
  max : ℤ
  sentence_monitor : Bool
  out_of_range : Bool
  self_mute : Bool
  resonance : Bool
  score : Bool
  deriving DecidableEq, Repr

/-- The `trackers` dictionary of `monitor_loop`.  `score_written` is read
with `trackers.get("score_written", False)`, so it is modelled as a field
that starts `false`. -/
structure Trackers where
  in_range_time : ℚ
  total_time : ℚ
  streak : ℚ
  last_error_time : ℚ
  sentence_start : Option ℚ
  sentence : Bool
  sentence_last : Option ℚ
  error : Bool
  score : ℚ
  score_written : Bool
  deriving DecidableEq, Repr

/-- The initial `trackers` dictionary built at the top of `monitor_loop`. -/
def initTrackers : Trackers :=
  { in_range_time := 0
    total_time := 0
    streak := 0
    last_error_time := 0
    sentence_start := none
    sentence := false
    sentence_last := none
    error := false
    score := 0
    score_written := false }

/-- The pitch-range check of `parse_sample` (lines 127-141): in-range
blocks bump the accumulator and streak; out-of-range blocks reset the
streak, flag a sentence error while a sentence is active, and fire the
debounced error cue when enabled. -/
def rangePhase (args : Args) (pitch now : ℚ) (t : Trackers) :
    Trackers × List Effect :=
  if (args.min : ℚ) ≤ pitch ∧ pitch ≤ (args.max : ℚ) then
    ({ t with in_range_time := t.in_range_time + 1, streak := t.streak + 1 }, [])
  else
    let t1 := { t with streak := 0 }
    let t2 := if t1.sentence then { t1 with error := true } else t1
    if args.out_of_range then
      if now - t2.last_error_time > 4 then
        ({ t2 with last_error_time := now }, [Effect.playError])
      else (t2, [])
    else (t2, [])

/-- The sentence-tracking block of `parse_sample` (lines 150-157): start a
sentence on the first speech block, and refresh `sentence_last` only while
the error flag is clear. -/
def sentencePhase (args : Args) (now : ℚ) (t : Trackers) : Trackers :=
  if args.sentence_monitor then
    if t.sentence = false then
      { t with sentence := true
               sentence_start := some now
               sentence_last := some now }
    else if t.error = false then
      { t with sentence_last := some now }
    else t
  else t

/-- The score-file block of `parse_sample` (lines 180-186).  Python's
`int(...)` truncates toward zero; `total_time` is a non-negative whole
number in every reachable state, so `Rat.floor` coincides with it. -/
def scorePhase (args : Args) (percent : ℚ) (t : Trackers) :
    Trackers × List Effect :=
  if args.score ∧ t.total_time.floor % 60 = 0 ∧ t.score_written = false then
    ({ t with score_written := true }, [Effect.writeScore percent])
  else if t.total_time.floor % 60 ≠ 0 then
    ({ t with score_written := false }, [])
  else (t, [])

/-- The running in-range percentage `(in_range_time / total_time) * 100`
printed by `parse_sample` and by the final report. -/
def currentPercent (t : Trackers) : ℚ :=
  t.in_range_time / t.total_time * 100

/-- `parse_sample(args, audio, samplerate, trackers)` for one speech block,
abstracted over the pitch estimate the external collaborator returns for
`audio` and over `time.time()`.  The resonance branch only prints labels
from an external formant collaborator and touches no tracker state, so it
is not modelled. -/
def parse_sample (args : Args) (pitch now : ℚ) (t : Trackers) :
    Trackers × List Effect :=
  let s1 := rangePhase args pitch now t
  let t1 := { s1.1 with total_time := s1.1.total_time + 1 }
  let percent := t1.in_range_time / t1.total_time * 100
  let reports := if t1.total_time > 0 then [Effect.reportPercent percent] else []
  let t2 := sentencePhase args now t1
  let s3 := scorePhase args percent t2
  (s3.1, s1.2 ++ reports ++ s3.2)

/-- `silence(trackers)` (lines 241-254), abstracted over `time.time()`.
In every reachable state with `sentence = true` the field
`sentence_start` is set (Python would raise otherwise), so the score
computation reads it with a default. -/
def silence (now : ℚ) (t : Trackers) : Trackers × List Effect :=
  if t.error then
    ({ t with sentence := false, error := false }, [])
  else if t.sentence then
    match t.sentence_last with
    | some sl =>
        if now - sl > 7/4 then
          ({ t with sentence := false
                    score := 100 * (sl - t.sentence_start.getD 0) },
           [Effect.playPinpon])
        else (t, [])
    | none => (t, [])
  else (t, [])

/-- The final report of `monitor_loop` on operator stop (lines 230-234). -/
def final_report (args : Args) (t : Trackers) : List Effect :=
  if args.score ∧ t.total_time > 0 then
    [Effect.reportFinal (currentPercent t)]
  else []

/-- One block delivered by the audio stream, as classified by
`is_audio_present` in `monitor_loop`: a speech block carries the pitch
estimate and the wall-clock time at which `parse_sample` runs. -/
inductive Block where
  | speech (pitch : ℚ) (now : ℚ) : Block
  | silent (now : ℚ) : Block
  deriving DecidableEq, Repr

/-- Whether a block takes the `parse_sample` path of `monitor_loop`. -/
def isSpeech : Block → Bool
  | Block.speech _ _ => true
  | Block.silent _ => false

/-- Whether a block is a speech block whose pitch lies in the target band. -/
def isInRange (args : Args) : Block → Bool
  | Block.speech p _ => decide ((args.min : ℚ) ≤ p ∧ p ≤ (args.max : ℚ))
  | Block.silent _ => false

/-- One iteration of the `monitor_loop` body. -/
def step (args : Args) (t : Trackers) : Block → Trackers × List Effect
  | Block.speech p now => parse_sample args p now t
  | Block.silent now => silence now t

/-- The `monitor_loop` over a finite sequence of blocks, collecting the
final tracker state and the concatenated effect stream. -/
def run (args : Args) (t : Trackers) : List Block → Trackers × List Effect
  | [] => (t, [])
  | b :: bs =>
    let s := step args t b
    let r := run args s.1 bs
    (r.1, s.2 ++ r.2)

/-- Number of `score.txt` writes in an effect stream. -/
def writeCount (effs : List Effect) : ℕ :=
  (effs.filter fun e =>
    match e with
    | Effect.writeScore _ => true
    | _ => false).length

/-- Tracker states reachable by `monitor_loop` from the initial dictionary
through any interleaving of speech and silent blocks. -/
inductive Reachable (args : Args) : Trackers → Prop where
  | init : Reachable args initTrackers
  | speech (t : Trackers) (p now : ℚ) :
      Reachable args t → Reachable args (parse_sample args p now t).1
  | silent (t : Trackers) (now : ℚ) :
      Reachable args t → Reachable args (silence now t).1

/-! ### Helper lemmas about the individual phases -/

lemma rangePhase_total_time (args : Args) (p now : ℚ) (t : Trackers) :
    (rangePhase args p now t).1.total_time = t.total_time := by
  simp only [rangePhase]
  split_ifs <;> rfl

lemma rangePhase_score_written (args : Args) (p now : ℚ) (t : Trackers) :
    (rangePhase args p now t).1.score_written = t.score_written := by
  simp only [rangePhase]
  split_ifs <;> rfl

lemma rangePhase_sentence (args : Args) (p now : ℚ) (t : Trackers) :
    (rangePhase args p now t).1.sentence = t.sentence := by
  simp only [rangePhase]
  split_ifs <;> rfl

lemma rangePhase_sentence_last (args : Args) (p now : ℚ) (t : Trackers) :
    (rangePhase args p now t).1.sentence_last = t.sentence_last := by
  simp only [rangePhase]
  split_ifs <;> rfl

lemma rangePhase_in_range_time (args : Args) (p now : ℚ) (t : Trackers) :
    (rangePhase args p now t).1.in_range_time =
      if (args.min : ℚ) ≤ p ∧ p ≤ (args.max : ℚ) then t.in_range_time + 1
      else t.in_range_time := by
  simp only [rangePhase]
  split_ifs <;> rfl

lemma rangePhase_streak (args : Args) (p now : ℚ) (t : Trackers) :
    (rangePhase args p now t).1.streak =
      if (args.min : ℚ) ≤ p ∧ p ≤ (args.max : ℚ) then t.streak + 1 else 0 := by
  simp only [rangePhase]
  split_ifs <;> rfl

lemma sentencePhase_fields (args : Args) (now : ℚ) (t : Trackers) :
    (sentencePhase args now t).in_range_time = t.in_range_time ∧
    (sentencePhase args now t).total_time = t.total_time ∧
    (sentencePhase args now t).streak = t.streak ∧
    (sentencePhase args now t).error = t.error ∧
    (sentencePhase args now t).last_error_time = t.last_error_time ∧
    (sentencePhase args now t).score_written = t.score_written := by
  simp only [sentencePhase]
  split_ifs <;> simp

lemma scorePhase_fields (args : Args) (percent : ℚ) (t : Trackers) :
    (scorePhase args percent t).1.in_range_time = t.in_range_time ∧
    (scorePhase args percent t).1.total_time = t.total_time ∧
    (scorePhase args percent t).1.streak = t.streak ∧
    (scorePhase args percent t).1.error = t.error ∧
    (scorePhase args percent t).1.last_error_time = t.last_error_time ∧
    (scorePhase args percent t).1.sentence = t.sentence ∧
    (scorePhase args percent t).1.sentence_last = t.sentence_last := by
  simp only [scorePhase]
  split_ifs <;> simp

lemma parse_sample_total_time (args : Args) (p now : ℚ) (t : Trackers) :
    (parse_sample args p now t).1.total_time = t.total_time + 1 := by
  simp only [parse_sample]
  rw [(scorePhase_fields _ _ _).2.1, (sentencePhase_fields _ _ _).2.1]
  simp [rangePhase_total_time]

lemma parse_sample_in_range_time (args : Args) (p now : ℚ) (t : Trackers) :
    (parse_sample args p now t).1.in_range_time =
      if (args.min : ℚ) ≤ p ∧ p ≤ (args.max : ℚ) then t.in_range_time + 1
      else t.in_range_time := by
  simp only [parse_sample]
  rw [(scorePhase_fields _ _ _).1, (sentencePhase_fields _ _ _).1]
  simp [rangePhase_in_range_time]

lemma parse_sample_streak (args : Args) (p now : ℚ) (t : Trackers) :
    (parse_sample args p now t).1.streak =
      if (args.min : ℚ) ≤ p ∧ p ≤ (args.max : ℚ) then t.streak + 1 else 0 := by
  simp only [parse_sample]
  rw [(scorePhase_fields _ _ _).2.2.1, (sentencePhase_fields _ _ _).2.2.1]
  simp [rangePhase_streak]

lemma silence_fields (now : ℚ) (t : Trackers) :
    (silence now t).1.in_range_time = t.in_range_time ∧
    (silence now t).1.total_time = t.total_time ∧
    (silence now t).1.streak = t.streak ∧
    (silence now t).1.last_error_time = t.last_error_time ∧
    (silence now t).1.score_written = t.score_written := by
  simp only [silence]
  split_ifs with h1 h2
  · simp
  · cases h : t.sentence_last
    · simp
    · dsimp only
      split_ifs <;> simp
  · simp

/-- Number of error-cue playback requests in an effect stream. -/
def errCount (effs : List Effect) : ℕ :=
  (effs.filter fun e =>
    match e with
    | Effect.playError => true
    | _ => false).length

lemma rangePhase_cue (args : Args) (p now : ℚ) (t : Trackers) :
    ((rangePhase args p now t).2, (rangePhase args p now t).1.last_error_time) =
      if ¬((args.min : ℚ) ≤ p ∧ p ≤ (args.max : ℚ)) ∧ args.out_of_range = true ∧
          now - t.last_error_time > 4
      then ([Effect.playError], now)
      else ([], t.last_error_time) := by
  have h2 : ∀ t1 : Trackers,
      (if t1.sentence = true then { t1 with error := true } else t1).last_error_time =
        t1.last_error_time := by
    intro t1; split_ifs <;> rfl
  simp only [rangePhase, h2]
  split_ifs <;> simp_all

lemma rangePhase_error (args : Args) (p now : ℚ) (t : Trackers) :
    (rangePhase args p now t).1.error =
      if (args.min : ℚ) ≤ p ∧ p ≤ (args.max : ℚ) then t.error
      else (t.sentence || t.error) := by
  simp only [rangePhase]
  split_ifs <;> simp_all

lemma sentencePhase_twoArgs (args : Args) (now : ℚ) (t : Trackers) :
    (sentencePhase args now t).sentence = (t.sentence || args.sentence_monitor) ∧
    (sentencePhase args now t).sentence_last =
      (if args.sentence_monitor = true then
        (if t.sentence = false then some now
         else if t.error = false then some now
         else t.sentence_last)
       else t.sentence_last) := by
  simp only [sentencePhase]
  split_ifs <;> simp_all

lemma scorePhase_cueCount (args : Args) (percent : ℚ) (t : Trackers) :
    errCount (scorePhase args percent t).2 = 0 := by
  simp only [scorePhase]
  split_ifs <;> rfl

lemma errCount_append (xs ys : List Effect) :
    errCount (xs ++ ys) = errCount xs + errCount ys := by
  simp [errCount, List.filter_append]

lemma errCount_reports (b : Prop) [Decidable b] (q : ℚ) :
    errCount (if b then [Effect.reportPercent q] else []) = 0 := by
  split_ifs <;> rfl

lemma parse_sample_errCount (args : Args) (p now : ℚ) (t : Trackers) :
    errCount (parse_sample args p now t).2 =
      errCount (rangePhase args p now t).2 := by
  simp only [parse_sample]
  rw [errCount_append, errCount_append, errCount_reports, scorePhase_cueCount]
  omega

lemma parse_sample_last_error_time (args : Args) (p now : ℚ) (t : Trackers) :
    (parse_sample args p now t).1.last_error_time =
      (rangePhase args p now t).1.last_error_time := by
  simp only [parse_sample]
  rw [(scorePhase_fields _ _ _).2.2.2.2.1, (sentencePhase_fields _ _ _).2.2.2.2.1]

lemma parse_sample_cue (args : Args) (p now : ℚ) (t : Trackers) :
    (errCount (parse_sample args p now t).2,
      (parse_sample args p now t).1.last_error_time) =
      if ¬((args.min : ℚ) ≤ p ∧ p ≤ (args.max : ℚ)) ∧ args.out_of_range = true ∧
          now - t.last_error_time > 4
      then (1, now)
      else (0, t.last_error_time) := by
  have hc := rangePhase_cue args p now t
  rw [parse_sample_errCount, parse_sample_last_error_time]
  by_cases hcond : ¬((args.min : ℚ) ≤ p ∧ p ≤ (args.max : ℚ)) ∧
      args.out_of_range = true ∧ now - t.last_error_time > 4
  · rw [if_pos hcond] at hc ⊢
    rw [Prod.mk.injEq] at hc
    rw [hc.1, hc.2]
    rfl
  · rw [if_neg hcond] at hc ⊢
    rw [Prod.mk.injEq] at hc
    rw [hc.1, hc.2]
    rfl

/-- Sample configuration used to instantiate hypothesis-bearing theorems. -/
def argsEx : Args :=
  { min := 100
    max := 200
    sentence_monitor := true
    out_of_range := true
    self_mute := false
    resonance := false
    score := true }

/-- Sample mid-sentence tracker state used to instantiate
hypothesis-bearing theorems. -/
def tEx : Trackers :=
  { initTrackers with
      in_range_time := 2
      total_time := 3
      streak := 2
      sentence := true
      sentence_start := some 0
      sentence_last := some 0 }

/-- **C1**: a silent block after an active sentence whose voiced gap
exceeds the 1.75 s timeout ends the sentence: with no prior out-of-range
block it plays exactly one reward cue and deactivates the sentence (and a
further silent block plays nothing); with a prior out-of-range block it
plays no cue, deactivates the sentence, and clears the error flag. -/
theorem C1_sentence_end_on_silence (t : Trackers) (now sl : ℚ)
    (hact : t.sentence = true) (hlast : t.sentence_last = some sl)
    (hgap : now - sl > 7/4) :
    (t.error = false →
        (silence now t).2 = [Effect.playPinpon] ∧
        (silence now t).1.sentence = false ∧
        ∀ now2 : ℚ, (silence now2 (silence now t).1).2 = []) ∧
    (t.error = true →
        (silence now t).2 = [] ∧
        (silence now t).1.sentence = false ∧
        (silence now t).1.error = false) := by
  constructor
  · intro herr
    have h1 : silence now t =
        ({ t with sentence := false,
                  score := 100 * (sl - t.sentence_start.getD 0) },
          [Effect.playPinpon]) := by
      simp [silence, hact, hlast, herr, hgap]
    rw [h1]
    refine ⟨rfl, rfl, fun now2 => ?_⟩
    simp [silence, herr]
  · intro herr
    simp [silence, herr]

theorem C1_witness :
    tEx.sentence = true ∧ tEx.sentence_last = some 0 ∧ (2 : ℚ) - 0 > 7/4 ∧
    ((tEx.error = false →
        (silence 2 tEx).2 = [Effect.playPinpon] ∧
        (silence 2 tEx).1.sentence = false ∧
        ∀ now2 : ℚ, (silence now2 (silence 2 tEx).1).2 = []) ∧
     (tEx.error = true →
        (silence 2 tEx).2 = [] ∧
        (silence 2 tEx).1.sentence = false ∧
        (silence 2 tEx).1.error = false)) :=
  ⟨rfl, rfl, by norm_num,
    C1_sentence_end_on_silence tEx 2 0 rfl rfl (by norm_num)⟩

/-- **C3**: with the error cue enabled, two out-of-range blocks closer
than the 4 s cooldown yield exactly one error playback request, two blocks
farther apart than the cooldown yield two, and the debounce timestamp is
updated exactly when a cue fires. -/
theorem C3_error_cue_debounce (args : Args) (t : Trackers)
    (p1 p2 time1 time2 : ℚ)
    (hc : args.out_of_range = true)
    (h1 : ¬((args.min : ℚ) ≤ p1 ∧ p1 ≤ (args.max : ℚ)))
    (h2 : ¬((args.min : ℚ) ≤ p2 ∧ p2 ≤ (args.max : ℚ)))
    (hfirst : time1 - t.last_error_time > 4) :
    (time2 - time1 < 4 →
        errCount (parse_sample args p1 time1 t).2 +
          errCount (parse_sample args p2 time2 (parse_sample args p1 time1 t).1).2
          = 1) ∧
    (time2 - time1 > 4 →
        errCount (parse_sample args p1 time1 t).2 +
          errCount (parse_sample args p2 time2 (parse_sample args p1 time1 t).1).2
          = 2) ∧
    (∀ (s : Trackers) (q now : ℚ),
        (errCount (parse_sample args q now s).2 = 1 →
          (parse_sample args q now s).1.last_error_time = now) ∧
        (errCount (parse_sample args q now s).2 = 0 →
          (parse_sample args q now s).1.last_error_time = s.last_error_time)) := by
  have hA := parse_sample_cue args p1 time1 t
  rw [if_pos ⟨h1, hc, hfirst⟩, Prod.mk.injEq] at hA
  obtain ⟨hA1, hA2⟩ := hA
  have hB := parse_sample_cue args p2 time2 (parse_sample args p1 time1 t).1
  rw [hA2] at hB
  refine ⟨?_, ?_, ?_⟩
  · intro hlt
    rw [if_neg (by intro hcc; linarith [hcc.2.2]), Prod.mk.injEq] at hB
    simp [hA1, hB.1]
  · intro hgt
    rw [if_pos ⟨h2, hc, hgt⟩, Prod.mk.injEq] at hB
    simp [hA1, hB.1]
  · intro s q now
    have hS := parse_sample_cue args q now s
    by_cases hcond : ¬((args.min : ℚ) ≤ q ∧ q ≤ (args.max : ℚ)) ∧
        args.out_of_range = true ∧ now - s.last_error_time > 4
    · rw [if_pos hcond, Prod.mk.injEq] at hS
      exact ⟨fun _ => hS.2, fun h0 => by rw [hS.1] at h0; cases h0⟩
    · rw [if_neg hcond, Prod.mk.injEq] at hS
      refine ⟨fun h1' => ?_, fun _ => hS.2⟩
      rw [hS.1] at h1'
      cases h1'

theorem C3_witness :
    argsEx.out_of_range = true ∧
    ¬((argsEx.min : ℚ) ≤ 300 ∧ (300 : ℚ) ≤ (argsEx.max : ℚ)) ∧
    (10 : ℚ) - initTrackers.last_error_time > 4 ∧
    (((11 : ℚ) - 10 < 4 →
        errCount (parse_sample argsEx 300 10 initTrackers).2 +
          errCount
            (parse_sample argsEx 300 11 (parse_sample argsEx 300 10 initTrackers).1).2
          = 1) ∧
     ((11 : ℚ) - 10 > 4 →
        errCount (parse_sample argsEx 300 10 initTrackers).2 +
          errCount
            (parse_sample argsEx 300 11 (parse_sample argsEx 300 10 initTrackers).1).2
          = 2) ∧
     (∀ (s : Trackers) (q now : ℚ),
        (errCount (parse_sample argsEx q now s).2 = 1 →
          (parse_sample argsEx q now s).1.last_error_time = now) ∧
        (errCount (parse_sample argsEx q now s).2 = 0 →
          (parse_sample argsEx q now s).1.last_error_time = s.last_error_time))) :=
  ⟨rfl, by norm_num [argsEx], by norm_num [initTrackers],
    C3_error_cue_debounce argsEx initTrackers 300 300 10 11 rfl
      (by norm_num [argsEx]) (by norm_num [argsEx]) (by norm_num [initTrackers])⟩

/-- **C5**: on a speech block processed while a sentence is active,
`sentence_last` is refreshed to the current time exactly when the
sentence error flag (as updated by this block's range check) is clear,
and once the error flag is set it stays set for the whole sentence even
if pitch returns to range. -/
theorem C5_last_voiced_frozen_after_error (args : Args) (t : Trackers)
    (p now : ℚ)
    (hsm : args.sentence_monitor = true) (hact : t.sentence = true) :
    ((parse_sample args p now t).1.error = false →
        (parse_sample args p now t).1.sentence_last = some now) ∧
    ((parse_sample args p now t).1.error = true →
        (parse_sample args p now t).1.sentence_last = t.sentence_last) ∧
    (t.error = true → (parse_sample args p now t).1.error = true) := by
  have herr : (parse_sample args p now t).1.error =
      (rangePhase args p now t).1.error := by
    simp only [parse_sample]
    rw [(scorePhase_fields _ _ _).2.2.2.1, (sentencePhase_fields _ _ _).2.2.2.1]
  have hlast : (parse_sample args p now t).1.sentence_last =
      (if (rangePhase args p now t).1.error = false then some now
       else t.sentence_last) := by
    simp only [parse_sample]
    rw [(scorePhase_fields _ _ _).2.2.2.2.2.2,
      (sentencePhase_twoArgs args now _).2]
    rw [rangePhase_sentence, rangePhase_sentence_last]
    simp [hsm, hact]
  refine ⟨?_, ?_, ?_⟩
  · intro h0
    rw [herr] at h0
    rw [hlast, if_pos h0]
  · intro h1
    rw [herr] at h1
    rw [hlast, if_neg (by simp [h1])]
  · intro h1
    rw [herr, rangePhase_error]
    split_ifs <;> simp [h1, hact]

theorem C5_witness :
    argsEx.sentence_monitor = true ∧ tEx.sentence = true ∧
    (((parse_sample argsEx 150 5 tEx).1.error = false →
        (parse_sample argsEx 150 5 tEx).1.sentence_last = some 5) ∧
     ((parse_sample argsEx 150 5 tEx).1.error = true →
        (parse_sample argsEx 150 5 tEx).1.sentence_last = tEx.sentence_last) ∧
     (tEx.error = true → (parse_sample argsEx 150 5 tEx).1.error = true)) :=
  ⟨rfl, rfl, C5_last_voiced_frozen_after_error argsEx tEx 150 5 rfl rfl⟩

/-- **C8**: a pitch exactly at `min_hz` or exactly at `max_hz` is
classified in-range: the in-range counter and streak are incremented, the
sentence error flag and debounce timestamp are untouched, and no error
cue is requested. -/
theorem C8_boundary_pitch_in_range (args : Args) (t : Trackers) (now p : ℚ)
    (hmm : args.min ≤ args.max)
    (hp : p = (args.min : ℚ) ∨ p = (args.max : ℚ)) :
    (parse_sample args p now t).1.in_range_time = t.in_range_time + 1 ∧
    (parse_sample args p now t).1.streak = t.streak + 1 ∧
    (parse_sample args p now t).1.error = t.error ∧
    (parse_sample args p now t).1.last_error_time = t.last_error_time ∧
    errCount (parse_sample args p now t).2 = 0 := by
  have hin : (args.min : ℚ) ≤ p ∧ p ≤ (args.max : ℚ) := by
    rcases hp with rfl | rfl
    · exact ⟨le_refl _, by exact_mod_cast hmm⟩
    · exact ⟨by exact_mod_cast hmm, le_refl _⟩
  have hcue := parse_sample_cue args p now t
  rw [if_neg (by intro hcc; exact hcc.1 hin), Prod.mk.injEq] at hcue
  refine ⟨?_, ?_, ?_, hcue.2, hcue.1⟩
  · rw [parse_sample_in_range_time, if_pos hin]
  · rw [parse_sample_streak, if_pos hin]
  · have herr : (parse_sample args p now t).1.error =
        (rangePhase args p now t).1.error := by
      simp only [parse_sample]
      rw [(scorePhase_fields _ _ _).2.2.2.1, (sentencePhase_fields _ _ _).2.2.2.1]
    rw [herr, rangePhase_error, if_pos hin]

theorem C8_witness :
    argsEx.min ≤ argsEx.max ∧
    ((100 : ℚ) = (argsEx.min : ℚ) ∨ (100 : ℚ) = (argsEx.max : ℚ)) ∧
    ((parse_sample argsEx 100 3 tEx).1.in_range_time = tEx.in_range_time + 1 ∧
     (parse_sample argsEx 100 3 tEx).1.streak = tEx.streak + 1 ∧
     (parse_sample argsEx 100 3 tEx).1.error = tEx.error ∧
     (parse_sample argsEx 100 3 tEx).1.last_error_time = tEx.last_error_time ∧
     errCount (parse_sample argsEx 100 3 tEx).2 = 0) :=
  ⟨by decide, by norm_num [argsEx],
    C8_boundary_pitch_in_range argsEx tEx 3 100 (by decide)
      (by norm_num [argsEx])⟩

/-- Sample configuration with all feature toggles off. -/
def argsPlain : Args :=
  { min := 100
    max := 200
    sentence_monitor := false
    out_of_range := false
    self_mute := false
    resonance := false
    score := false }

/-- The ten-block frequency sequence of the spec's worked example. -/
def c7blocks : List Block :=
  [Block.speech 150 0, Block.speech 150 1, Block.speech 250 2, Block.speech 150 3,
   Block.speech 150 4, Block.speech 150 5, Block.speech 150 6, Block.speech 150 7,
   Block.speech 0 8, Block.speech 150 9]

lemma run_counts (args : Args) (bs : List Block) : ∀ t : Trackers,
    (run args t bs).1.in_range_time =
      t.in_range_time + ((bs.filter (isInRange args)).length : ℚ) ∧
    (run args t bs).1.total_time =
      t.total_time + ((bs.filter isSpeech).length : ℚ) := by
  induction bs with
  | nil => intro t; simp [run]
  | cons b bs ih =>
    intro t
    cases b with
    | speech p now =>
      simp only [run, step]
      obtain ⟨ih1, ih2⟩ := ih (parse_sample args p now t).1
      constructor
      · rw [ih1, parse_sample_in_range_time]
        by_cases hin : (args.min : ℚ) ≤ p ∧ p ≤ (args.max : ℚ)
        · rw [if_pos hin]
          simp only [isInRange, List.filter_cons, decide_eq_true_eq, if_pos hin,
            List.length_cons]
          push_cast
          ring
        · rw [if_neg hin]
          simp only [isInRange, List.filter_cons, decide_eq_true_eq, if_neg hin]
      · rw [ih2, parse_sample_total_time]
        simp only [isSpeech, List.filter_cons, if_pos, List.length_cons]
        push_cast
        ring
    | silent now =>
      simp only [run, step]
      obtain ⟨ih1, ih2⟩ := ih (silence now t).1
      rw [ih1, ih2, (silence_fields now t).1, (silence_fields now t).2.1]
      simp [isInRange, isSpeech, List.filter_cons]

lemma count_inRange_le_speech (args : Args) : ∀ bs : List Block,
    (bs.filter (isInRange args)).length ≤ (bs.filter isSpeech).length := by
  intro bs
  induction bs with
  | nil => simp
  | cons b bs ih =>
    cases b with
    | speech p now =>
      simp only [isInRange, isSpeech, List.filter_cons]
      split_ifs <;> simp <;> omega
    | silent now =>
      simpa [isInRange, isSpeech, List.filter_cons] using ih

lemma parse_sample_report (args : Args) (p now : ℚ) (t : Trackers)
    (h : 0 ≤ t.total_time) :
    Effect.reportPercent (currentPercent (parse_sample args p now t).1) ∈
      (parse_sample args p now t).2 := by
  have hpos : (0 : ℚ) < (rangePhase args p now t).1.total_time + 1 := by
    rw [rangePhase_total_time]
    linarith
  have hcp : currentPercent (parse_sample args p now t).1 =
      (rangePhase args p now t).1.in_range_time /
        ((rangePhase args p now t).1.total_time + 1) * 100 := by
    simp only [currentPercent, parse_sample]
    rw [(scorePhase_fields _ _ _).1, (scorePhase_fields _ _ _).2.1,
      (sentencePhase_fields _ _ _).1, (sentencePhase_fields _ _ _).2.1]
  rw [hcp]
  simp only [parse_sample, List.mem_append]
  left
  right
  rw [if_pos hpos]
  simp

/-- **C2**: along any block sequence the in-range counter never exceeds
the processed-block counter, the two counters equal the number of
in-range and of speech blocks, the printed percentage is `100*N/M`, and
every processed block prints the percentage of the resulting state. -/
theorem C2_in_range_percentage (args : Args) (bs : List Block) :
    (run args initTrackers bs).1.in_range_time ≤
      (run args initTrackers bs).1.total_time ∧
    (run args initTrackers bs).1.in_range_time =
      ((bs.filter (isInRange args)).length : ℚ) ∧
    (run args initTrackers bs).1.total_time =
      ((bs.filter isSpeech).length : ℚ) ∧
    (0 < (run args initTrackers bs).1.total_time →
      currentPercent (run args initTrackers bs).1 =
        100 * ((bs.filter (isInRange args)).length : ℚ) /
          ((bs.filter isSpeech).length : ℚ)) ∧
    (∀ p now : ℚ,
      Effect.reportPercent
          (currentPercent (parse_sample args p now (run args initTrackers bs).1).1) ∈
        (parse_sample args p now (run args initTrackers bs).1).2) := by
  obtain ⟨h1, h2⟩ := run_counts args bs initTrackers
  rw [show initTrackers.in_range_time = 0 from rfl, zero_add] at h1
  rw [show initTrackers.total_time = 0 from rfl, zero_add] at h2
  have hle : (run args initTrackers bs).1.in_range_time ≤
      (run args initTrackers bs).1.total_time := by
    rw [h1, h2]
    exact_mod_cast count_inRange_le_speech args bs
  refine ⟨hle, h1, h2, ?_, ?_⟩
  · intro hpos
    rw [currentPercent, h1, h2]
    ring
  · intro p now
    exact parse_sample_report args p now _ (by rw [h2]; positivity)

theorem C2_witness :
    0 < (run argsPlain initTrackers [Block.speech 150 0]).1.total_time ∧
    currentPercent (run argsPlain initTrackers [Block.speech 150 0]).1 =
      100 * ((([Block.speech 150 0] : List Block).filter (isInRange argsPlain)).length : ℚ) /
        ((([Block.speech 150 0] : List Block).filter isSpeech).length : ℚ) := by
  have hpos : 0 < (run argsPlain initTrackers [Block.speech 150 0]).1.total_time := by
    rw [(run_counts argsPlain [Block.speech 150 0] initTrackers).2]
    norm_num [initTrackers, isSpeech]
  exact ⟨hpos, (C2_in_range_percentage argsPlain [Block.speech 150 0]).2.2.2.1 hpos⟩

lemma run_streak_nonneg (args : Args) : ∀ (bs : List Block) (t : Trackers),
    0 ≤ t.streak → 0 ≤ (run args t bs).1.streak := by
  intro bs
  induction bs with
  | nil => intro t h; simpa [run]
  | cons b bs ih =>
    intro t h
    simp only [run]
    apply ih
    cases b with
    | speech p now =>
      simp only [step, parse_sample_streak]
      split_ifs
      · linarith
      · exact le_refl 0
    | silent now =>
      simp only [step]
      rw [(silence_fields now t).2.2.1]
      exact h

/-- **C6 counterexample**: starting from the initial state, one in-range
speech block (streak 1) followed by a silent block leaves the streak at 1:
the silent-block handler `silence` never touches the streak, refuting
"reset to 0 by every silent block". -/
theorem C6_counterexample :
    (run argsPlain initTrackers [Block.speech 150 0, Block.silent 10]).1.streak ≠ 0 := by
  set_option maxRecDepth 4000 in
  norm_num [run, step, parse_sample, rangePhase, sentencePhase, scorePhase,
    silence, initTrackers, argsPlain]

/-- **C6 (amended)**: `streak` is always non-negative along any run, grows
by the block duration on each in-range block, and is reset to 0 by every
out-of-range block; silent blocks leave it unchanged. -/
theorem C6_streak_behaviour :
    (∀ (args : Args) (bs : List Block), 0 ≤ (run args initTrackers bs).1.streak) ∧
    (∀ (args : Args) (t : Trackers) (p now : ℚ),
        ((args.min : ℚ) ≤ p ∧ p ≤ (args.max : ℚ)) →
        (parse_sample args p now t).1.streak = t.streak + 1) ∧
    (∀ (args : Args) (t : Trackers) (p now : ℚ),
        ¬((args.min : ℚ) ≤ p ∧ p ≤ (args.max : ℚ)) →
        (parse_sample args p now t).1.streak = 0) ∧
    (∀ (t : Trackers) (now : ℚ), (silence now t).1.streak = t.streak) := by
  refine ⟨?_, ?_, ?_, ?_⟩
  · intro args bs
    exact run_streak_nonneg args bs initTrackers (le_refl 0)
  · intro args t p now hin
    rw [parse_sample_streak, if_pos hin]
  · intro args t p now hout
    rw [parse_sample_streak, if_neg hout]
  · intro t now
    exact (silence_fields now t).2.2.1

theorem C6_witness :
    ((argsEx.min : ℚ) ≤ 150 ∧ (150 : ℚ) ≤ (argsEx.max : ℚ)) ∧
    (parse_sample argsEx 150 5 tEx).1.streak = tEx.streak + 1 :=
  ⟨by norm_num [argsEx],
    C6_streak_behaviour.2.1 argsEx tEx 150 5 (by norm_num [argsEx])⟩

/-- **C7**: an undetected pitch (estimate 0) is processed like an
out-of-range block — processed counter incremented, in-range counter
unchanged, streak reset — and the spec's worked example
`[150,150,250,150,150,150,150,150,0,150]` with band `[100,200]` gives
8 in-range blocks out of 10 and an 80% score. -/
theorem C7_undetected_pitch_example :
    ((run argsPlain initTrackers c7blocks).1.in_range_time = 8 ∧
     (run argsPlain initTrackers c7blocks).1.total_time = 10 ∧
     currentPercent (run argsPlain initTrackers c7blocks).1 = 80) ∧
    (∀ (args : Args) (t : Trackers) (now : ℚ), 0 < args.min →
        (parse_sample args 0 now t).1.total_time = t.total_time + 1 ∧
        (parse_sample args 0 now t).1.in_range_time = t.in_range_time ∧
        (parse_sample args 0 now t).1.streak = 0) := by
  constructor
  · set_option maxRecDepth 8000 in
    norm_num [run, step, parse_sample, rangePhase, sentencePhase, scorePhase,
      initTrackers, argsPlain, c7blocks, currentPercent]
  · intro args t now hmin
    have hmin' : (0 : ℚ) < (args.min : ℚ) := by exact_mod_cast hmin
    have hout : ¬((args.min : ℚ) ≤ 0 ∧ (0 : ℚ) ≤ (args.max : ℚ)) := by
      intro hcc
      linarith [hcc.1]
    exact ⟨parse_sample_total_time args 0 now t,
      by rw [parse_sample_in_range_time, if_neg hout],
      by rw [parse_sample_streak, if_neg hout]⟩

theorem C7_witness :
    (0 : ℤ) < argsPlain.min ∧
    ((parse_sample argsPlain 0 7 tEx).1.total_time = tEx.total_time + 1 ∧
     (parse_sample argsPlain 0 7 tEx).1.in_range_time = tEx.in_range_time ∧
     (parse_sample argsPlain 0 7 tEx).1.streak = 0) :=
  ⟨by decide, C7_undetected_pitch_example.2 argsPlain tEx 7 (by decide)⟩

lemma parse_sample_error_eq (args : Args) (p now : ℚ) (t : Trackers) :
    (parse_sample args p now t).1.error = (rangePhase args p now t).1.error := by
  simp only [parse_sample]
  rw [(scorePhase_fields _ _ _).2.2.2.1, (sentencePhase_fields _ _ _).2.2.2.1]

lemma parse_sample_sentence (args : Args) (p now : ℚ) (t : Trackers) :
    (parse_sample args p now t).1.sentence =
      (t.sentence || args.sentence_monitor) := by
  simp only [parse_sample]
  rw [(scorePhase_fields _ _ _).2.2.2.2.2.1, (sentencePhase_twoArgs _ _ _).1,
    rangePhase_sentence]

lemma silence_error (now : ℚ) (t : Trackers) : (silence now t).1.error = false := by
  simp only [silence]
  split_ifs with h1 h2
  · rfl
  · cases h : t.sentence_last
    · simpa using h1
    · dsimp only
      split_ifs <;> simpa using h1
  · simpa using h1

/-- **C10**: in every reachable tracker state the sentence error flag
implies an active sentence, and consequently a speech block arriving with
no active sentence (the sentence-start transition) always leaves the
error flag clear even though the start transition never writes it. -/
theorem C10_error_implies_sentence_active (args : Args) (t : Trackers)
    (h : Reachable args t) :
    (t.error = true → t.sentence = true) ∧
    (t.sentence = false →
      ∀ p now : ℚ, (parse_sample args p now t).1.error = false) := by
  have hmain : t.error = true → t.sentence = true := by
    induction h with
    | init => intro he; cases he
    | speech t p now ht ih =>
      intro he
      rw [parse_sample_error_eq, rangePhase_error] at he
      rw [parse_sample_sentence]
      split_ifs at he
      · rw [ih he]
        simp
      · rcases Bool.or_eq_true_iff.mp he with hs | herr
        · rw [hs]
          simp
        · rw [ih herr]
          simp
    | silent t now ht ih =>
      intro he
      rw [silence_error] at he
      cases he
  refine ⟨hmain, ?_⟩
  intro hs p now
  have herr : t.error = false := by
    cases he : t.error
    · rfl
    · rw [hmain he] at hs
      cases hs
  rw [parse_sample_error_eq, rangePhase_error]
  split_ifs
  · exact herr
  · rw [hs, herr]
    simp

theorem C10_witness :
    (initTrackers.error = true → initTrackers.sentence = true) ∧
    (initTrackers.sentence = false →
      ∀ p now : ℚ, (parse_sample argsEx p now initTrackers).1.error = false) :=
  C10_error_implies_sentence_active argsEx initTrackers Reachable.init

lemma ratFloor_natCast (k : ℕ) : ((k : ℚ)).floor = (k : ℤ) := by
  rw [Rat.floor_def']
  simp

lemma writeCount_append (xs ys : List Effect) :
    writeCount (xs ++ ys) = writeCount xs + writeCount ys := by
  simp [writeCount, List.filter_append]

lemma rangePhase_writeCount (args : Args) (p now : ℚ) (t : Trackers) :
    writeCount (rangePhase args p now t).2 = 0 := by
  simp only [rangePhase]
  split_ifs <;> rfl

lemma writeCount_reports (b : Prop) [Decidable b] (q : ℚ) :
    writeCount (if b then [Effect.reportPercent q] else []) = 0 := by
  split_ifs <;> rfl

lemma silence_writeCount (now : ℚ) (t : Trackers) :
    writeCount (silence now t).2 = 0 := by
  simp only [silence]
  split_ifs with h1 h2
  · rfl
  · cases h : t.sentence_last
    · rfl
    · dsimp only
      split_ifs <;> rfl
  · rfl

lemma scorePhase_step (args : Args) (percent : ℚ) (t2 : Trackers) (k : ℕ)
    (hk : t2.total_time = ((k + 1 : ℕ) : ℚ))
    (hflag : t2.score_written = (args.score && decide (k % 60 = 0 ∧ 0 < k))) :
    (scorePhase args percent t2).1.score_written =
      (args.score && decide ((k + 1) % 60 = 0 ∧ 0 < k + 1)) ∧
    writeCount (scorePhase args percent t2).2 =
      (if args.score = true ∧ (k + 1) % 60 = 0 then 1 else 0) := by
  have hfl : t2.total_time.floor % 60 = 0 ↔ (k + 1) % 60 = 0 := by
    rw [hk, ratFloor_natCast]
    omega
  cases hsc : args.score with
  | false =>
    rw [hsc, Bool.false_and] at hflag
    have hno : ¬(args.score = true ∧ t2.total_time.floor % 60 = 0 ∧
        t2.score_written = false) := by
      rintro ⟨h, -, -⟩
      rw [hsc] at h
      cases h
    by_cases hm : (k + 1) % 60 = 0
    · rw [scorePhase, if_neg hno, if_neg (not_not_intro (hfl.mpr hm))]
      constructor
      · rw [hflag, Bool.false_and]
      · rw [if_neg (by rintro ⟨h, -⟩; cases h)]
        rfl
    · rw [scorePhase, if_neg hno, if_pos (fun hc => hm (hfl.mp hc))]
      constructor
      · show false = _
        rw [Bool.false_and]
      · rw [if_neg (fun hc => hm hc.2)]
        rfl
  | true =>
    rw [hsc, Bool.true_and] at hflag
    by_cases hm : (k + 1) % 60 = 0
    · have hfw : t2.score_written = false := by
        cases hfw2 : t2.score_written with
        | false => rfl
        | true =>
          rw [hfw2, eq_comm, decide_eq_true_eq] at hflag
          omega
      rw [scorePhase, if_pos ⟨hsc, hfl.mpr hm, hfw⟩]
      constructor
      · show true = _
        rw [Bool.true_and, eq_comm, decide_eq_true_eq]
        omega
      · rw [if_pos ⟨rfl, hm⟩]
        rfl
    · rw [scorePhase, if_neg (fun hc => hm (hfl.mp hc.2.1)),
        if_pos (fun hc => hm (hfl.mp hc))]
      constructor
      · show false = _
        rw [Bool.true_and, eq_comm]
        simp [hm]
      · rw [if_neg (fun hc => hm hc.2)]
        rfl

lemma parse_sample_score_step (args : Args) (p now : ℚ) (t : Trackers) (k : ℕ)
    (hk : t.total_time = (k : ℚ))
    (hflag : t.score_written = (args.score && decide (k % 60 = 0 ∧ 0 < k))) :
    (parse_sample args p now t).1.total_time = ((k + 1 : ℕ) : ℚ) ∧
    (parse_sample args p now t).1.score_written =
      (args.score && decide ((k + 1) % 60 = 0 ∧ 0 < k + 1)) ∧
    writeCount (parse_sample args p now t).2 =
      (if args.score = true ∧ (k + 1) % 60 = 0 then 1 else 0) := by
  refine ⟨?_, ?_, ?_⟩
  · rw [parse_sample_total_time, hk]
    push_cast
    ring
  · simp only [parse_sample]
    refine (scorePhase_step args _ _ k ?_ ?_).1
    · rw [(sentencePhase_fields _ _ _).2.1]
      dsimp only
      rw [rangePhase_total_time, hk]
      push_cast
      ring
    · rw [(sentencePhase_fields _ _ _).2.2.2.2.2]
      dsimp only
      rw [rangePhase_score_written]
      exact hflag
  · simp only [parse_sample]
    rw [writeCount_append, writeCount_append, rangePhase_writeCount,
      writeCount_reports]
    simp only [Nat.zero_add, zero_add]
    refine (scorePhase_step args _ _ k ?_ ?_).2
    · rw [(sentencePhase_fields _ _ _).2.1]
      dsimp only
      rw [rangePhase_total_time, hk]
      push_cast
      ring
    · rw [(sentencePhase_fields _ _ _).2.2.2.2.2]
      dsimp only
      rw [rangePhase_score_written]
      exact hflag

lemma run_score (args : Args) : ∀ (bs : List Block) (t : Trackers) (k : ℕ),
    t.total_time = (k : ℚ) →
    t.score_written = (args.score && decide (k % 60 = 0 ∧ 0 < k)) →
    writeCount (run args t bs).2 =
      (if args.score = true
       then (k + (bs.filter isSpeech).length) / 60 - k / 60
       else 0) := by
  intro bs
  induction bs with
  | nil =>
    intro t k hk hf
    cases hs : args.score <;> simp [run, writeCount, hs]
  | cons b bs ih =>
    intro t k hk hf
    cases b with
    | silent now =>
      simp only [run, step]
      rw [writeCount_append, silence_writeCount,
        ih (silence now t).1 k
          (by rw [(silence_fields now t).2.1]; exact hk)
          (by rw [(silence_fields now t).2.2.2.2]; exact hf)]
      simp [isSpeech, List.filter_cons]
    | speech p now =>
      obtain ⟨ht, hfl2, hw⟩ := parse_sample_score_step args p now t k hk hf
      simp only [run, step]
      rw [writeCount_append, hw,
        ih (parse_sample args p now t).1 (k + 1) (by exact_mod_cast ht) hfl2]
      simp only [isSpeech, List.filter_cons, if_pos, List.length_cons]
      by_cases hs : args.score = true
      · simp only [hs, if_true, true_and]
        have h1 : (k + 1) / 60 = k / 60 + if 60 ∣ (k + 1) then 1 else 0 :=
          Nat.succ_div k 60
        have h2 : k / 60 ≤ (k + 1) / 60 := Nat.div_le_div_right (by omega)
        have h3 : (k + 1) / 60 ≤ (k + 1 + (bs.filter isSpeech).length) / 60 :=
          Nat.div_le_div_right (by omega)
        split_ifs at h1 ⊢ <;> omega
      · simp [hs]

lemma writeScore_mem_parse (args : Args) (p now : ℚ) (t : Trackers) (q : ℚ)
    (hm : Effect.writeScore q ∈ (parse_sample args p now t).2) :
    q = currentPercent (parse_sample args p now t).1 := by
  have hcp : currentPercent (parse_sample args p now t).1 =
      (rangePhase args p now t).1.in_range_time /
        ((rangePhase args p now t).1.total_time + 1) * 100 := by
    simp only [currentPercent, parse_sample]
    rw [(scorePhase_fields _ _ _).1, (scorePhase_fields _ _ _).2.1,
      (sentencePhase_fields _ _ _).1, (sentencePhase_fields _ _ _).2.1]
  rw [hcp]
  simp only [parse_sample, List.mem_append] at hm
  rcases hm with (hm | hm) | hm
  · have hc := rangePhase_cue args p now t
    by_cases hcond : ¬((args.min : ℚ) ≤ p ∧ p ≤ (args.max : ℚ)) ∧
        args.out_of_range = true ∧ now - t.last_error_time > 4
    · rw [if_pos hcond, Prod.mk.injEq] at hc
      rw [hc.1] at hm
      simp at hm
    · rw [if_neg hcond, Prod.mk.injEq] at hc
      rw [hc.1] at hm
      simp at hm
  · split_ifs at hm <;> simp at hm
  · simp only [scorePhase] at hm
    split_ifs at hm <;> simp at hm
    exact hm

/-- **C4**: with scoring enabled, a run over `M` processed blocks writes
the score file exactly `⌊M/60⌋` times (one write per completed minute of
processed audio, hence at most once per minute bucket even though the
check runs on every block), every write carries the running percentage of
the state it was taken from, and the final report on operator stop with a
nonzero processed count is emitted exactly once. -/
theorem C4_score_write_cadence (args : Args) (bs : List Block)
    (hs : args.score = true) :
    writeCount (run args initTrackers bs).2 = (bs.filter isSpeech).length / 60 ∧
    (∀ (t : Trackers) (p now q : ℚ),
        Effect.writeScore q ∈ (parse_sample args p now t).2 →
        q = currentPercent (parse_sample args p now t).1) ∧
    (0 < (run args initTrackers bs).1.total_time →
      final_report args (run args initTrackers bs).1 =
        [Effect.reportFinal (currentPercent (run args initTrackers bs).1)]) := by
  refine ⟨?_, ?_, ?_⟩
  · have h0 := run_score args bs initTrackers 0 (by rfl)
      (by simp [show initTrackers.score_written = false from rfl])
    rw [h0, if_pos hs]
    simp
  · intro t p now q hm
    exact writeScore_mem_parse args p now t q hm
  · intro hpos
    simp [final_report, hs, hpos]

theorem C4_witness :
    argsEx.score = true ∧
    writeCount (run argsEx initTrackers [Block.speech 150 0]).2 =
      (([Block.speech 150 0] : List Block).filter isSpeech).length / 60 :=
  ⟨rfl, (C4_score_write_cadence argsEx [Block.speech 150 0] rfl).1⟩

/-! ### Voice-activity gate on extended (IEEE-style) sample values

`is_audio_present` runs `bandpass_filter` (a `scipy.signal.lfilter` with
Butterworth coefficients from the external `scipy.signal.butter`
collaborator) and compares the mean absolute output against a threshold.
To settle the non-finite-input claim the samples are modelled as exact
finite rationals extended with signed infinities and NaN, with IEEE-754
propagation rules for the operations involved; rounding of finite values
plays no role in the inputs analysed (all-zero, NaN-bearing,
infinity-bearing).  The development is parametric in the filter
coefficients `b` (numerator) and `arest` (denominator past the leading
`a[0] = 1`, the normalisation `butter` returns). -/

/-- An IEEE-style sample value: finite, ±infinity, or NaN. -/
inductive EVal where
  | fin (q : ℚ) : EVal
  | inf (pos : Bool) : EVal
  | nan : EVal
  deriving DecidableEq, Repr

/-- IEEE addition on extended values. -/
def EVal.add : EVal → EVal → EVal
  | nan, _ => nan
  | _, nan => nan
  | fin a, fin b => fin (a + b)
  | fin _, inf s => inf s
  | inf s, fin _ => inf s
  | inf s, inf t => if s = t then inf s else nan

/-- IEEE negation on extended values. -/
def EVal.neg : EVal → EVal
  | fin a => fin (-a)
  | inf s => inf (!s)
  | nan => nan

/-- IEEE subtraction on extended values. -/
def EVal.sub (x y : EVal) : EVal := x.add y.neg

/-- IEEE multiplication on extended values (`0 · ∞ = NaN`). -/
def EVal.mul : EVal → EVal → EVal
  | nan, _ => nan
  | _, nan => nan
  | fin a, fin b => fin (a * b)
  | fin a, inf s => if a = 0 then nan else if 0 < a then inf s else inf (!s)
  | inf s, fin a => if a = 0 then nan else if 0 < a then inf s else inf (!s)
  | inf s, inf t => inf (s == t)

/-- IEEE absolute value on extended values. -/
def EVal.abs : EVal → EVal
  | fin a => fin |a|
  | inf _ => inf true
  | nan => nan

/-- Division by a list length (for `np.mean`); the empty mean is NaN as in
numpy. -/
def EVal.divNat : EVal → ℕ → EVal
  | _, 0 => nan
  | fin a, n => fin (a / n)
  | inf s, _ => inf s
  | nan, _ => nan

/-- IEEE comparison `x > threshold` with a finite threshold: NaN compares
false, as numpy evaluates it. -/
def EVal.gtQ : EVal → ℚ → Bool
  | fin a, th => decide (th < a)
  | inf s, _ => s
  | nan, _ => false

/-- Dot product of filter coefficients with the most-recent-first sample
history, as used in `lfilter`'s direct-form difference equation; a
shorter history truncates the sum. -/
def convAt : List ℚ → List EVal → EVal
  | c :: cs, v :: vs => ((EVal.fin c).mul v).add (convAt cs vs)
  | _, _ => EVal.fin 0

/-- Sample-by-sample evaluation of the `scipy.signal.lfilter` difference
equation `y[n] = Σ b[i]·x[n-i] − Σ a[j]·y[n-j]` with `a[0] = 1`;
`xrev`/`yrev` hold already-consumed inputs and produced outputs most
recent first. -/
def lfilterGo (b arest : List ℚ) :
    List EVal → List EVal → List EVal → List EVal
  | _, _, [] => []
  | xrev, yrev, x :: xs =>
    let y := (convAt b (x :: xrev)).sub (convAt arest yrev)
    y :: lfilterGo b arest (x :: xrev) (y :: yrev) xs

def lfilter (b arest : List ℚ) (xs : List EVal) : List EVal :=
  lfilterGo b arest [] [] xs

/-- `bandpass_filter(data, sr)` (lines 20-25), parametric in the
Butterworth coefficients delivered by `scipy.signal.butter`. -/
def bandpass_filter (b arest : List ℚ) (data : List EVal) : List EVal :=
  lfilter b arest data

/-- `np.abs(filtered).mean()` on extended values. -/
def emean (xs : List EVal) : EVal :=
  (xs.foldl EVal.add (EVal.fin 0)).divNat xs.length

/-- `is_audio_present(indata, sr, threshold)` (lines 45-48): band-pass
filter, mean absolute amplitude, then `energy > threshold` (default
threshold 0.005). -/
def is_audio_present (b arest : List ℚ) (indata : List EVal)
    (threshold : ℚ) : Bool :=
  (emean ((bandpass_filter b arest indata).map EVal.abs)).gtQ threshold

lemma EVal.nan_add (x : EVal) : EVal.nan.add x = EVal.nan := by
  cases x <;> rfl

lemma EVal.add_nan (x : EVal) : x.add EVal.nan = EVal.nan := by
  cases x <;> rfl

lemma EVal.mul_nan (x : EVal) : x.mul EVal.nan = EVal.nan := by
  cases x <;> rfl

lemma EVal.nan_sub (x : EVal) : EVal.nan.sub x = EVal.nan := by
  rw [EVal.sub]
  exact EVal.nan_add _

lemma EVal.nan_divNat (n : ℕ) : EVal.nan.divNat n = EVal.nan := by
  cases n <;> rfl

lemma convAt_zero (cs : List ℚ) : ∀ vs : List EVal,
    (∀ v ∈ vs, v = EVal.fin 0) → convAt cs vs = EVal.fin 0 := by
  induction cs with
  | nil => intro vs _; cases vs <;> rfl
  | cons c cs ih =>
    intro vs h
    cases vs with
    | nil => rfl
    | cons v vs =>
      have hv : v = EVal.fin 0 := h v (by simp)
      have hrest : ∀ w ∈ vs, w = EVal.fin 0 := fun w hw => h w (by simp [hw])
      rw [convAt, hv, ih vs hrest]
      simp [EVal.mul, EVal.add]

lemma convAt_nan_head (c : ℚ) (cs : List ℚ) (vs : List EVal) :
    convAt (c :: cs) (EVal.nan :: vs) = EVal.nan := by
  rw [convAt, EVal.mul_nan, EVal.nan_add]

lemma lfilterGo_zero (b arest : List ℚ) : ∀ (xs xrev yrev : List EVal),
    (∀ v ∈ xs, v = EVal.fin 0) → (∀ v ∈ xrev, v = EVal.fin 0) →
    (∀ v ∈ yrev, v = EVal.fin 0) →
    ∀ y ∈ lfilterGo b arest xrev yrev xs, y = EVal.fin 0 := by
  intro xs
  induction xs with
  | nil =>
    intro xrev yrev _ _ _ y hy
    simp [lfilterGo] at hy
  | cons x xs ih =>
    intro xrev yrev hxs hxr hyr y hy
    have hx : x = EVal.fin 0 := hxs x (by simp)
    have hz1 : ∀ v ∈ x :: xrev, v = EVal.fin 0 := by
      intro v hv
      rcases List.mem_cons.mp hv with h | h
      · exact h.trans hx
      · exact hxr v h
    have hhead : (convAt b (x :: xrev)).sub (convAt arest yrev) = EVal.fin 0 := by
      rw [convAt_zero b _ hz1, convAt_zero arest yrev hyr]
      simp [EVal.sub, EVal.neg, EVal.add]
    simp only [lfilterGo] at hy
    rcases List.mem_cons.mp hy with h | h
    · exact h.trans hhead
    · refine ih (x :: xrev) (_ :: yrev) (fun v hv => hxs v (by simp [hv])) hz1
        ?_ y h
      intro v hv
      rcases List.mem_cons.mp hv with h2 | h2
      · exact h2.trans hhead
      · exact hyr v h2

lemma lfilterGo_nan (b0 : ℚ) (brest arest : List ℚ) :
    ∀ (xs xrev yrev : List EVal), EVal.nan ∈ xs →
    EVal.nan ∈ lfilterGo (b0 :: brest) arest xrev yrev xs := by
  intro xs
  induction xs with
  | nil =>
    intro xrev yrev h
    cases h
  | cons x xs ih =>
    intro xrev yrev h
    simp only [lfilterGo]
    rcases List.mem_cons.mp h with hx | hxs
    · rw [← hx, convAt_nan_head, EVal.nan_sub]
      exact List.mem_cons_self _ _
    · exact List.mem_cons_of_mem _ (ih _ _ hxs)

lemma foldl_add_nan_acc (xs : List EVal) :
    xs.foldl EVal.add EVal.nan = EVal.nan := by
  induction xs with
  | nil => rfl
  | cons v vs ih =>
    rw [List.foldl_cons, EVal.nan_add]
    exact ih

lemma foldl_add_nan (xs : List EVal) : ∀ acc : EVal, EVal.nan ∈ xs →
    xs.foldl EVal.add acc = EVal.nan := by
  induction xs with
  | nil =>
    intro acc h
    cases h
  | cons v vs ih =>
    intro acc h
    rcases List.mem_cons.mp h with hv | hv
    · rw [List.foldl_cons, ← hv, EVal.add_nan]
      exact foldl_add_nan_acc vs
    · rw [List.foldl_cons]
      exact ih _ hv

lemma foldl_add_zero (xs : List EVal) : (∀ v ∈ xs, v = EVal.fin 0) →
    xs.foldl EVal.add (EVal.fin 0) = EVal.fin 0 := by
  induction xs with
  | nil => intro _; rfl
  | cons v vs ih =>
    intro h
    rw [List.foldl_cons, h v (by simp)]
    have : (EVal.fin 0).add (EVal.fin 0) = EVal.fin 0 := by
      simp [EVal.add]
    rw [this]
    exact ih fun w hw => h w (by simp [hw])

/-- **C9 counterexample**: the input block `[0, +∞]` contains a non-finite
sample, yet with a nonzero leading numerator coefficient (as `butter`
produces) the infinity survives the filter and the mean, `∞ > 0.005`
evaluates true, and the gate classifies the block as speech — refuting
"returns false for every input with non-finite samples". -/
theorem C9_counterexample :
    is_audio_present [1/1000] [] [EVal.fin 0, EVal.inf true] (1/200) = true := by
  norm_num [is_audio_present, bandpass_filter, lfilter, lfilterGo, convAt,
    emean, EVal.add, EVal.mul, EVal.sub, EVal.neg, EVal.abs, EVal.divNat,
    EVal.gtQ]

/-- **C9 (amended)**: the voice-activity gate is a total function that
raises no fault; every all-zero block and every block containing a NaN
sample classifies as silence (`false`) for any filter coefficients with a
leading numerator tap and any non-negative threshold.  (A block containing
an infinity may classify as speech, per the counterexample.) -/
theorem C9_zero_and_nan_silent (b arest : List ℚ) (x : List EVal) (th : ℚ)
    (hb : b ≠ []) (hth : 0 ≤ th) :
    ((∀ v ∈ x, v = EVal.fin 0) → is_audio_present b arest x th = false) ∧
    (EVal.nan ∈ x → is_audio_present b arest x th = false) := by
  constructor
  · intro hz
    have hout : ∀ y ∈ lfilter b arest x, y = EVal.fin 0 :=
      lfilterGo_zero b arest x [] [] hz (by intro v hv; cases hv)
        (by intro v hv; cases hv)
    have habs2 : ∀ y ∈ (lfilter b arest x).map EVal.abs, y = EVal.fin 0 := by
      intro y hy
      rcases List.mem_map.mp hy with ⟨z, hz2, rfl⟩
      rw [hout z hz2]
      simp [EVal.abs]
    rw [is_audio_present, bandpass_filter, emean, foldl_add_zero _ habs2]
    cases hlen : ((lfilter b arest x).map EVal.abs).length with
    | zero => rfl
    | succ n =>
      show (EVal.fin (0 / ((n + 1 : ℕ) : ℚ))).gtQ th = false
      simp [EVal.gtQ, zero_div, not_lt.mpr hth]
  · intro hnan
    obtain ⟨b0, brest, rfl⟩ : ∃ b0 brest, b = b0 :: brest := by
      cases b with
      | nil => exact absurd rfl hb
      | cons b0 brest => exact ⟨b0, brest, rfl⟩
    have hout : EVal.nan ∈ lfilter (b0 :: brest) arest x :=
      lfilterGo_nan b0 brest arest x [] [] hnan
    have habs : EVal.nan ∈ (lfilter (b0 :: brest) arest x).map EVal.abs :=
      List.mem_map.mpr ⟨EVal.nan, hout, rfl⟩
    rw [is_audio_present, bandpass_filter, emean,
      foldl_add_nan _ (EVal.fin 0) habs, EVal.nan_divNat]
    rfl

theorem C9_witness :
    (([(1 : ℚ)/1000] : List ℚ) ≠ []) ∧ ((0 : ℚ) ≤ 1/200) ∧
    (((∀ v ∈ ([EVal.nan] : List EVal), v = EVal.fin 0) →
        is_audio_present [1/1000] [] [EVal.nan] (1/200) = false) ∧
     (EVal.nan ∈ ([EVal.nan] : List EVal) →
        is_audio_present [1/1000] [] [EVal.nan] (1/200) = false)) :=
  ⟨by simp, by norm_num,
    C9_zero_and_nan_silent [1/1000] [] [EVal.nan] (1/200) (by simp) (by norm_num)⟩

end GVA
